import Mathlib
/-!
Shallow embedding of the balance engine (class BalanceCalculator in
src/context/plans/base-plan.md, lines 680 to 800) together with the data
shapes it operates on (same file, lines 422 to 451).

Modelling decisions:
- JavaScript numbers are modelled as rationals; the literal 0.01 is 1/100.
- A JavaScript Map is modelled as an association list whose set operation
  replaces in place when the key is present and appends otherwise, so keys
  stay unique and iteration order is insertion order, as for a real Map.
- The Date fields (createdAt, updatedAt) and the optional imageUrl field of
  Expense are omitted: the balance engine never reads them.
- Number.prototype.toFixed(2) followed by Number(...) is modelled as
  rounding to the nearest multiple of 1/100, ties towards the larger value,
  which is the rounding rule of toFixed.
- simplifyDebts writes through the object references held in its creditors
  array (the debtors are spread-copied, the creditors are not), so the
  source function both returns a transaction list and mutates the balance
  fields of the creditor records of its argument.  greedyLoop below embeds
  the returned transaction list; greedyLoopTrace and simplifyDebtsPost
  embed the state of the argument array after the call.
-/
/-- ExpenseSplit (base-plan.md lines 437 to 442). -/
structure ExpenseSplit where
  userId : String
  displayName : String
  amount : ℚ
  settled : Bool
deriving DecidableEq
/-- Expense (base-plan.md lines 422 to 435); the two Date fields and the
optional imageUrl are omitted, the balance engine never reads them. -/
structure Expense where
  id : String
  groupId : String
  description : String
  amount : ℚ
  category : String
  paidBy : String
  paidByName : String
  createdBy : String
  splits : List ExpenseSplit
deriving DecidableEq
/-- GroupBalance (base-plan.md lines 444 to 451). -/
structure GroupBalance where
  groupId : String
  userId : String
  displayName : String
  totalPaid : ℚ
  totalOwed : ℚ
  balance : ℚ
deriving DecidableEq
/-- Balance: the record shape pushed onto the transactions array in
simplifyDebts: userId, displayName, amount. -/
structure Balance where
  userId : String
  displayName : String
  amount : ℚ
deriving DecidableEq
/-- memberNames.get(userId) || "Unknown": a missing key, and also an empty
string value (falsy in JavaScript), give the placeholder. -/
def nameOrUnknown (memberNames : List (String × String)) (userId : String) : String :=
  match memberNames.lookup userId with
  | some s => if s = "" then "Unknown" else s
  | none => "Unknown"
/-- Map.set: replace in place when the key is present, append otherwise. -/
def mapSet (m : List (String × GroupBalance)) (k : String) (v : GroupBalance) :
    List (String × GroupBalance) :=
  if m.any (fun p => p.1 = k) then m.map (fun p => if p.1 = k then (k, v) else p)
  else m ++ [(k, v)]
/-- The effect of `const x = balances.get(k); if (x) mutate x;` on the Map:
the entry at key k, when present, is updated through the reference. -/
def mapAdjust (m : List (String × GroupBalance)) (k : String)
    (f : GroupBalance → GroupBalance) : List (String × GroupBalance) :=
  m.map (fun p => if p.1 = k then (p.1, f p.2) else p)
/-- The fresh GroupBalance installed for each roster member at the start of
calculateGroupBalances (base-plan.md lines 695 to 704). -/
def initialEntry (expenses : List Expense) (memberNames : List (String × String))
    (userId : String) : GroupBalance :=
  { groupId := (expenses.head?.map Expense.groupId).getD ""
    userId := userId
    displayName := nameOrUnknown memberNames userId
    totalPaid := 0
    totalOwed := 0
    balance := 0 }
/-- The memberIds.forEach initialization loop of calculateGroupBalances. -/
def initBalances (expenses : List Expense) (memberIds : List String)
    (memberNames : List (String × String)) : List (String × GroupBalance) :=
  memberIds.foldl (fun m userId => mapSet m userId (initialEntry expenses memberNames userId)) []
/-- The body of expense.splits.forEach: an unsettled split adds its amount to
the totalOwed of the member at split.userId, when that member is present. -/
def applySplit (m : List (String × GroupBalance)) (split : ExpenseSplit) :
    List (String × GroupBalance) :=
  if split.settled = false then
    mapAdjust m split.userId
      (fun member => { member with totalOwed := member.totalOwed + split.amount })
  else m
/-- The body of expenses.forEach: credit the payer with the full amount, then
process every split. -/
def applyExpense (m : List (String × GroupBalance)) (expense : Expense) :
    List (String × GroupBalance) :=
  expense.splits.foldl applySplit
    (mapAdjust m expense.paidBy
      (fun payer => { payer with totalPaid := payer.totalPaid + expense.amount }))
/-- BalanceCalculator.calculateGroupBalances (base-plan.md lines 687 to 730). -/
def calculateGroupBalances (expenses : List Expense) (memberIds : List String)
    (memberNames : List (String × String)) : List GroupBalance :=
  ((expenses.foldl applyExpense (initBalances expenses memberIds memberNames)).map
    Prod.snd).map (fun b => { b with balance := b.totalPaid - b.totalOwed })
/-- The creditors array of simplifyDebts: filter balance > 0.01, then sort
descending by balance (the JavaScript sort is stable). -/
def creditorsOf (groupBalances : List GroupBalance) : List GroupBalance :=
  (groupBalances.filter (fun b => b.balance > 1/100)).mergeSort
    (fun a b => b.balance ≤ a.balance)
/-- The debtors array of simplifyDebts: filter balance < -0.01, spread-copy
with the balance negated, then sort descending by (negated) balance. -/
def debtorsOf (groupBalances : List GroupBalance) : List GroupBalance :=
  ((groupBalances.filter (fun b => b.balance < -(1/100))).map
      (fun b => { b with balance := -b.balance })).mergeSort
    (fun a b => b.balance ≤ a.balance)
/-- The while loop of simplifyDebts (base-plan.md lines 753 to 770).  The two
lists hold the creditor and debtor entries not yet advanced past; an entry is
dropped exactly when its updated balance has fallen below 0.01.  The local
variable amount = min(creditor.balance, debtor.balance) of the source is
written out in full at each use. -/
def greedyLoop : List GroupBalance → List GroupBalance → List Balance
  | [], _ => []
  | _ :: _, [] => []
  | creditor :: cs, debtor :: ds =>
    { userId := debtor.userId
      displayName := debtor.displayName ++ " owes " ++ creditor.displayName
      amount := min creditor.balance debtor.balance } ::
    greedyLoop
      (if creditor.balance - min creditor.balance debtor.balance < 1/100 then cs
       else { creditor with
                balance := creditor.balance - min creditor.balance debtor.balance } :: cs)
      (if debtor.balance - min creditor.balance debtor.balance < 1/100 then ds
       else { debtor with
                balance := debtor.balance - min creditor.balance debtor.balance } :: ds)
termination_by x y => x.length + y.length
decreasing_by
  simp only [List.length_cons]
  split
  next h1 =>
    split
    next => omega
    next => simp only [List.length_cons]; omega
  next h1 =>
    split
    next => simp only [List.length_cons]; omega
    next h2 =>
      exfalso
      rcases le_total creditor.balance debtor.balance with h | h
      · exact h1 (by rw [min_eq_left h]; norm_num)
      · exact h2 (by rw [min_eq_right h]; norm_num)
/-- BalanceCalculator.simplifyDebts, return value (base-plan.md lines 737 to
773). -/
def simplifyDebts (groupBalances : List GroupBalance) : List Balance :=
  greedyLoop (creditorsOf groupBalances) (debtorsOf groupBalances)
/-- Number(x.toFixed(2)): round to the nearest multiple of 1/100, ties to
the larger value. -/
def toFixed2 (x : ℚ) : ℚ := round (x * 100) / 100
/-- BalanceCalculator.splitEqually (base-plan.md lines 778 to 791).  For an
empty member list the division is never evaluated (the map produces nothing),
so the value of division by zero does not matter. -/
def splitEqually (amount : ℚ) (memberIds : List String)
    (memberNames : List (String × String)) : List ExpenseSplit :=
  let splitAmount := amount / (memberIds.length : ℚ)
  memberIds.map (fun userId =>
    { userId := userId
      displayName := nameOrUnknown memberNames userId
      amount := toFixed2 splitAmount
      settled := false })
/-- BalanceCalculator.validateCustomSplits (base-plan.md lines 796 to 799). -/
def validateCustomSplits (amount : ℚ) (splits : List ExpenseSplit) : Bool :=
  let total := splits.foldl (fun sum split => sum + split.amount) 0
  decide (|total - amount| < 1/100)
/-- The while loop of simplifyDebts again, this time also tracking the final
state of every creditor entry (tagged by its position in the original
groupBalances array).  The creditors array of the source holds references
into the caller array and creditor.balance -= amount writes through them, so
every creditor entry the loop touched or passed ends the call with its
current (mutated) balance.  Returns (transactions, final creditor entries). -/
def greedyLoopTrace : List (ℕ × GroupBalance) → List GroupBalance →
    List Balance × List (ℕ × GroupBalance)
  | [], _ => ([], [])
  | c :: cs, [] => ([], c :: cs)
  | (i, creditor) :: cs, debtor :: ds =>
    let amount := min creditor.balance debtor.balance
    let t : Balance :=
      { userId := debtor.userId
        displayName := debtor.displayName ++ " owes " ++ creditor.displayName
        amount := amount }
    let c2 : GroupBalance := { creditor with balance := creditor.balance - amount }
    let dl := if debtor.balance - amount < 1/100 then ds
              else { debtor with balance := debtor.balance - amount } :: ds
    if c2.balance < 1/100 then
      let r := greedyLoopTrace cs dl
      (t :: r.1, (i, c2) :: r.2)
    else
      let r := greedyLoopTrace ((i, c2) :: cs) dl
      (t :: r.1, r.2)
termination_by x y => x.length + y.length
decreasing_by
  · split
    next => simp only [List.length_cons]; omega
    next => simp only [List.length_cons]; omega
  · rename_i h1
    split
    next => simp only [List.length_cons]; omega
    next h2 =>
      exfalso
      rcases le_total creditor.balance debtor.balance with h | h
      · exact h1 (show creditor.balance - min creditor.balance debtor.balance < 1/100 by
          rw [min_eq_left h]; norm_num)
      · exact h2 (show debtor.balance - min creditor.balance debtor.balance < 1/100 by
          rw [min_eq_right h]; norm_num)
/-- The state of the groupBalances array after a call of simplifyDebts: the
debtor records were spread-copied and stay unchanged, but the creditor
records were aliased by the creditors array and carry whatever balance the
greedy loop left in them. -/
def simplifyDebtsPost (groupBalances : List GroupBalance) : List GroupBalance :=
  let indexed := groupBalances.enum
  let creditors := (indexed.filter (fun p => p.2.balance > 1/100)).mergeSort
    (fun a b => b.2.balance ≤ a.2.balance)
  let fin := (greedyLoopTrace creditors (debtorsOf groupBalances)).2
  indexed.map (fun p =>
    match fin.find? (fun q => q.1 == p.1) with
    | some q => q.2
    | none => p.2)
def mapKeys (m : List (String × GroupBalance)) : List String := m.map Prod.fst
def sumPaid (m : List (String × GroupBalance)) : ℚ :=
  (m.map (fun p => p.2.totalPaid)).sum
def sumOwed (m : List (String × GroupBalance)) : ℚ :=
  (m.map (fun p => p.2.totalOwed)).sum
/-- A sample expense: 100 paid by a, split 50-50 between a and b, unsettled. -/
def expenseW : Expense :=
  { id := "e1", groupId := "g", description := "d", amount := 100, category := "c",
    paidBy := "a", paidByName := "A", createdBy := "a",
    splits := [{ userId := "a", displayName := "A", amount := 50, settled := false },
               { userId := "b", displayName := "B", amount := 50, settled := false }] }
/-- An expense paid by an outsider, fully split to roster member a. -/
def expenseOutsider : Expense :=
  { id := "e1", groupId := "g", description := "d", amount := 100, category := "c",
    paidBy := "zed", paidByName := "Zed", createdBy := "zed",
    splits := [{ userId := "a", displayName := "A", amount := 100, settled := false }] }
/-- The roster-facing fields of one map entry: the stored userId is the key
and the display name is the looked-up name with the Unknown fallback. -/
def entryWF (memberNames : List (String × String)) (k : String) (b : GroupBalance) : Prop :=
  b.userId = k ∧ b.displayName = nameOrUnknown memberNames k
def sumAmountsTo (u : String) (ts : List Balance) : ℚ :=
  ((ts.filter (fun t => t.userId = u)).map Balance.amount).sum
def sumBalTo (u : String) (l : List GroupBalance) : ℚ :=
  ((l.filter (fun b => b.userId = u)).map GroupBalance.balance).sum
def countId (u : String) (l : List GroupBalance) : ℕ :=
  (l.filter (fun b => b.userId = u)).length
def totalBal (l : List GroupBalance) : ℚ := (l.map GroupBalance.balance).sum
/-- Two concrete balances: alice is owed 50, bob owes 50. -/
def gbAlice : GroupBalance :=
  { groupId := "g", userId := "alice", displayName := "Alice",
    totalPaid := 100, totalOwed := 50, balance := 50 }
def gbBob : GroupBalance :=
  { groupId := "g", userId := "bob", displayName := "Bob",
    totalPaid := 0, totalOwed := 50, balance := -50 }
/-- A creditor with balance 51. -/
def gbCarol : GroupBalance :=
  { groupId := "g", userId := "carol", displayName := "Carol",
    totalPaid := 51, totalOwed := 0, balance := 51 }
/-- A debtor with balance -50. -/
def gbDave : GroupBalance :=
  { groupId := "g", userId := "dave", displayName := "Dave",
    totalPaid := 0, totalOwed := 50, balance := -50 }
/-- A single debtor with nobody to pay. -/
def gbLone : GroupBalance :=
  { groupId := "g", userId := "dave", displayName := "Dave",
    totalPaid := 0, totalOwed := 5, balance := -5 }
lemma foldl_add_amount (l : List ExpenseSplit) (c : ℚ) :
    l.foldl (fun sum split => sum + split.amount) c = c + (l.map ExpenseSplit.amount).sum := by
  induction l generalizing c with
  | nil => simp
  | cons x xs ih => simp [ih]; ring
lemma abs_toFixed2_sub (x : ℚ) : |toFixed2 x - x| ≤ 1/200 := by
  have h := abs_sub_round (x * 100)
  rw [abs_sub_comm] at h
  unfold toFixed2
  have e : (round (x * 100) : ℚ) / 100 - x = ((round (x * 100) : ℚ) - x * 100) / 100 := by
    ring
  rw [e, abs_div]
  have : |(100 : ℚ)| = 100 := by norm_num
  rw [this]
  linarith
/-- C7: validateCustomSplits amount splits is true exactly when the sum of
the split amounts differs from amount by strictly less than 0.01; and in
scenario E the three equal splits of 100 across three members sum to 99.99,
whose distance from 100 is exactly 0.01, so validation fails. -/
theorem validateCustomSplits_iff_scenarioE :
    (∀ (amount : ℚ) (splits : List ExpenseSplit),
      validateCustomSplits amount splits = true ↔
        |(splits.map ExpenseSplit.amount).sum - amount| < 1/100) ∧
    validateCustomSplits 100 (splitEqually 100 ["m1", "m2", "m3"] []) = false := by
  constructor
  · intro amount splits
    unfold validateCustomSplits
    rw [foldl_add_amount, decide_eq_true_eq, zero_add]
  · unfold splitEqually validateCustomSplits nameOrUnknown toFixed2
    norm_num [round_eq]
    rw [abs_of_pos (by norm_num : (0:ℚ) < 1/100)]
/-- C8 counterexample: called with an empty member list, splitEqually does
not fail: it silently returns the empty split list. -/
theorem splitEqually_empty_counterexample : splitEqually 100 [] [] = [] := rfl
/-- C8 amended: for every amount and names map, splitEqually on an empty
member list silently returns the empty list of splits; no error condition is
signaled (the function has no error outcome at all). -/
theorem splitEqually_empty_silent (amount : ℚ) (memberNames : List (String × String)) :
    splitEqually amount [] memberNames = [] := rfl
/-- C9: for positive amount and a nonempty member list, splitEqually yields
one split per member, each with the same amount, namely amount divided by
the member count rounded to 2 decimal places, each unsettled, and the sum of
the split amounts differs from amount by at most 0.01 times the member
count. -/
theorem splitEqually_spec (amount : ℚ) (memberIds : List String)
    (memberNames : List (String × String)) (hpos : 0 < amount) (hne : memberIds ≠ []) :
    (splitEqually amount memberIds memberNames).length = memberIds.length ∧
    (∀ s ∈ splitEqually amount memberIds memberNames,
      s.amount = toFixed2 (amount / memberIds.length) ∧ s.settled = false) ∧
    |((splitEqually amount memberIds memberNames).map ExpenseSplit.amount).sum - amount| ≤
      1/100 * memberIds.length := by
  refine ⟨by simp [splitEqually], ?_, ?_⟩
  · intro s hs
    unfold splitEqually at hs
    simp only [List.mem_map] at hs
    obtain ⟨u, _, rfl⟩ := hs
    exact ⟨rfl, rfl⟩
  · have hn : (0 : ℚ) < memberIds.length := by
      have := List.length_pos.mpr hne
      exact_mod_cast this
    unfold splitEqually
    rw [List.map_map]
    have e1 : (ExpenseSplit.amount ∘ fun userId =>
        ({ userId := userId, displayName := nameOrUnknown memberNames userId,
           amount := toFixed2 (amount / memberIds.length), settled := false } : ExpenseSplit)) =
        Function.const String (toFixed2 (amount / memberIds.length)) := rfl
    rw [e1, List.map_const, List.sum_replicate, nsmul_eq_mul]
    have h2 := abs_toFixed2_sub (amount / memberIds.length)
    have e2 : (memberIds.length : ℚ) * toFixed2 (amount / memberIds.length) - amount =
        (memberIds.length : ℚ) * (toFixed2 (amount / memberIds.length) - amount / memberIds.length) := by
      field_simp
      ring
    rw [e2, abs_mul, abs_of_pos hn]
    have : (memberIds.length : ℚ) * |toFixed2 (amount / memberIds.length) - amount / memberIds.length| ≤
        (memberIds.length : ℚ) * (1/200) := by
      apply mul_le_mul_of_nonneg_left h2 (le_of_lt hn)
    linarith
/-- C9 witness at amount 100 and three members. -/
theorem splitEqually_spec_witness :
    (0 : ℚ) < 100 ∧ (["m1", "m2", "m3"] : List String) ≠ [] ∧
    ((splitEqually 100 ["m1", "m2", "m3"] []).length = (["m1", "m2", "m3"] : List String).length ∧
    (∀ s ∈ splitEqually 100 ["m1", "m2", "m3"] [],
      s.amount = toFixed2 (100 / (["m1", "m2", "m3"] : List String).length) ∧ s.settled = false) ∧
    |((splitEqually 100 ["m1", "m2", "m3"] []).map ExpenseSplit.amount).sum - 100| ≤
      1/100 * (["m1", "m2", "m3"] : List String).length) :=
  ⟨by norm_num, by simp, splitEqually_spec 100 ["m1", "m2", "m3"] [] (by norm_num) (by simp)⟩
lemma any_key_iff (m : List (String × GroupBalance)) (k : String) :
    (m.any (fun p => p.1 = k) = true) ↔ k ∈ mapKeys m := by
  simp [mapKeys, List.any_eq_true]
lemma mapKeys_mapSet (m : List (String × GroupBalance)) (k : String) (v : GroupBalance) :
    mapKeys (mapSet m k v) = if k ∈ mapKeys m then mapKeys m else mapKeys m ++ [k] := by
  unfold mapSet
  by_cases h : k ∈ mapKeys m
  · rw [if_pos ((any_key_iff m k).mpr h), if_pos h]
    unfold mapKeys
    rw [List.map_map]
    apply List.map_congr_left
    intro p _
    by_cases hp : p.1 = k
    · simp [hp]
    · simp [hp]
  · rw [if_neg (fun hc => h ((any_key_iff m k).mp hc)), if_neg h]
    simp [mapKeys]
lemma mapKeys_mapAdjust (m : List (String × GroupBalance)) (k : String)
    (f : GroupBalance → GroupBalance) : mapKeys (mapAdjust m k f) = mapKeys m := by
  unfold mapKeys mapAdjust
  rw [List.map_map]
  apply List.map_congr_left
  intro p _
  by_cases hp : p.1 = k <;> simp [hp]
lemma mapAdjust_of_not_mem (m : List (String × GroupBalance)) (k : String)
    (f : GroupBalance → GroupBalance) (h : k ∉ mapKeys m) : mapAdjust m k f = m := by
  unfold mapAdjust
  conv_rhs => rw [← List.map_id m]
  apply List.map_congr_left
  intro p hp
  have hpk : p.1 ≠ k := fun e => h (e ▸ List.mem_map_of_mem Prod.fst hp)
  simp [hpk]
lemma nodup_mapKeys_mapSet (m : List (String × GroupBalance)) (k : String) (v : GroupBalance)
    (h : (mapKeys m).Nodup) : (mapKeys (mapSet m k v)).Nodup := by
  rw [mapKeys_mapSet]
  by_cases hk : k ∈ mapKeys m
  · simpa [hk]
  · simp [hk, List.nodup_append, h]
lemma mapAdjust_cons (p : String × GroupBalance) (ps : List (String × GroupBalance))
    (k : String) (f : GroupBalance → GroupBalance) :
    mapAdjust (p :: ps) k f = (if p.1 = k then (p.1, f p.2) else p) :: mapAdjust ps k f := rfl
lemma mapKeys_cons (p : String × GroupBalance) (ps : List (String × GroupBalance)) :
    mapKeys (p :: ps) = p.1 :: mapKeys ps := rfl
/-- Adding a to a g-projection at key k raises the g-sum by a when k is
present (keys unique), and leaves it alone otherwise. -/
lemma sum_proj_mapAdjust (g : GroupBalance → ℚ) (f : GroupBalance → GroupBalance)
    (a : ℚ) (hf : ∀ b, g (f b) = g b + a) :
    ∀ (m : List (String × GroupBalance)) (k : String), (mapKeys m).Nodup →
    ((mapAdjust m k f).map (fun p => g p.2)).sum =
      (m.map (fun p => g p.2)).sum + if k ∈ mapKeys m then a else 0 := by
  intro m
  induction m with
  | nil => intro k _; simp [mapAdjust, mapKeys]
  | cons p ps ih =>
    intro k h
    rw [mapKeys_cons, List.nodup_cons] at h
    rw [mapAdjust_cons, mapKeys_cons]
    by_cases hp : p.1 = k
    · rw [if_pos hp, mapAdjust_of_not_mem ps k f (hp ▸ h.1)]
      simp only [List.map_cons, List.sum_cons, hf]
      rw [if_pos (by simp [hp])]
      ring
    · rw [if_neg hp]
      simp only [List.map_cons, List.sum_cons, ih k h.2]
      have hiff : k ∈ p.1 :: mapKeys ps ↔ k ∈ mapKeys ps := by
        simp [List.mem_cons]
        intro e; exact absurd e.symm hp
      by_cases hk : k ∈ mapKeys ps
      · rw [if_pos hk, if_pos (hiff.mpr hk)]; ring
      · rw [if_neg hk, if_neg (fun c => hk (hiff.mp c))]; ring
/-- A g-invariant update leaves the g-sum alone (no key uniqueness needed). -/
lemma sum_proj_mapAdjust_inv (g : GroupBalance → ℚ) (f : GroupBalance → GroupBalance)
    (hf : ∀ b, g (f b) = g b) (m : List (String × GroupBalance)) (k : String) :
    ((mapAdjust m k f).map (fun p => g p.2)).sum = (m.map (fun p => g p.2)).sum := by
  induction m with
  | nil => rfl
  | cons p ps ih =>
    rw [mapAdjust_cons]
    simp only [List.map_cons, List.sum_cons, ih]
    by_cases hp : p.1 = k
    · rw [if_pos hp]; simp [hf]
    · rw [if_neg hp]
/-- Entrywise invariants survive mapAdjust. -/
lemma mapAdjust_entries (P : String → GroupBalance → Prop) (f : GroupBalance → GroupBalance)
    (m : List (String × GroupBalance)) (k : String)
    (hf : ∀ k' b, P k' b → P k' (f b)) (h : ∀ p ∈ m, P p.1 p.2) :
    ∀ p ∈ mapAdjust m k f, P p.1 p.2 := by
  intro p hp
  unfold mapAdjust at hp
  rw [List.mem_map] at hp
  obtain ⟨q, hq, rfl⟩ := hp
  by_cases hk : q.1 = k
  · simp only [if_pos hk]; exact hf q.1 q.2 (h q hq)
  · simp only [if_neg hk]; exact h q hq
lemma mapKeys_applySplit (m : List (String × GroupBalance)) (s : ExpenseSplit) :
    mapKeys (applySplit m s) = mapKeys m := by
  unfold applySplit
  by_cases hs : s.settled = false
  · rw [if_pos hs, mapKeys_mapAdjust]
  · rw [if_neg hs]
lemma mapKeys_splits_foldl (l : List ExpenseSplit) (m : List (String × GroupBalance)) :
    mapKeys (l.foldl applySplit m) = mapKeys m := by
  induction l generalizing m with
  | nil => rfl
  | cons s ss ih => rw [List.foldl_cons, ih, mapKeys_applySplit]
lemma mapKeys_applyExpense (m : List (String × GroupBalance)) (e : Expense) :
    mapKeys (applyExpense m e) = mapKeys m := by
  unfold applyExpense
  rw [mapKeys_splits_foldl, mapKeys_mapAdjust]
lemma mapKeys_expenses_foldl (l : List Expense) (m : List (String × GroupBalance)) :
    mapKeys (l.foldl applyExpense m) = mapKeys m := by
  induction l generalizing m with
  | nil => rfl
  | cons e es ih => rw [List.foldl_cons, ih, mapKeys_applyExpense]
lemma sumPaid_applySplit (m : List (String × GroupBalance)) (s : ExpenseSplit) :
    sumPaid (applySplit m s) = sumPaid m := by
  unfold applySplit
  by_cases hs : s.settled = false
  · rw [if_pos hs]
    exact sum_proj_mapAdjust_inv GroupBalance.totalPaid
      (fun member => { member with totalOwed := member.totalOwed + s.amount })
      (fun b => rfl) m s.userId
  · rw [if_neg hs]
lemma sumPaid_splits_foldl (l : List ExpenseSplit) (m : List (String × GroupBalance)) :
    sumPaid (l.foldl applySplit m) = sumPaid m := by
  induction l generalizing m with
  | nil => rfl
  | cons s ss ih => rw [List.foldl_cons, ih, sumPaid_applySplit]
lemma sumOwed_applySplit (m : List (String × GroupBalance)) (s : ExpenseSplit)
    (h : (mapKeys m).Nodup) :
    sumOwed (applySplit m s) = sumOwed m +
      if s.settled = false ∧ s.userId ∈ mapKeys m then s.amount else 0 := by
  unfold applySplit sumOwed
  by_cases hs : s.settled = false
  · rw [if_pos hs,
      sum_proj_mapAdjust GroupBalance.totalOwed
        (fun member => { member with totalOwed := member.totalOwed + s.amount })
        s.amount (fun b => rfl) m s.userId h]
    by_cases hk : s.userId ∈ mapKeys m
    · rw [if_pos hk, if_pos ⟨hs, hk⟩]
    · rw [if_neg hk, if_neg (fun c => hk c.2)]
  · rw [if_neg hs, if_neg (fun c => hs c.1), add_zero]
lemma sumOwed_splits_foldl (l : List ExpenseSplit) (m : List (String × GroupBalance))
    (h : (mapKeys m).Nodup) :
    sumOwed (l.foldl applySplit m) = sumOwed m +
      ((l.filter (fun s => s.settled = false ∧ s.userId ∈ mapKeys m)).map
        ExpenseSplit.amount).sum := by
  induction l generalizing m with
  | nil => simp
  | cons s ss ih =>
    rw [List.foldl_cons, ih (applySplit m s)
      (by rw [mapKeys_applySplit]; exact h)]
    rw [sumOwed_applySplit m s h, mapKeys_applySplit]
    by_cases hc : s.settled = false ∧ s.userId ∈ mapKeys m
    · rw [if_pos hc, List.filter_cons_of_pos (by simpa using hc)]
      simp only [List.map_cons, List.sum_cons]
      ring
    · rw [if_neg hc, List.filter_cons_of_neg (by simpa using hc)]
      ring
lemma sumOwed_applyExpense (m : List (String × GroupBalance)) (e : Expense)
    (h : (mapKeys m).Nodup) :
    sumOwed (applyExpense m e) = sumOwed m +
      ((e.splits.filter (fun s => s.settled = false ∧ s.userId ∈ mapKeys m)).map
        ExpenseSplit.amount).sum := by
  unfold applyExpense
  rw [sumOwed_splits_foldl _ _ (by rw [mapKeys_mapAdjust]; exact h), mapKeys_mapAdjust]
  have hinv : sumOwed (mapAdjust m e.paidBy
      (fun payer => { payer with totalPaid := payer.totalPaid + e.amount })) = sumOwed m :=
    sum_proj_mapAdjust_inv GroupBalance.totalOwed
      (fun payer => { payer with totalPaid := payer.totalPaid + e.amount })
      (fun b => rfl) m e.paidBy
  rw [hinv]
lemma sumPaid_applyExpense (m : List (String × GroupBalance)) (e : Expense)
    (h : (mapKeys m).Nodup) :
    sumPaid (applyExpense m e) = sumPaid m +
      if e.paidBy ∈ mapKeys m then e.amount else 0 := by
  unfold applyExpense
  rw [sumPaid_splits_foldl]
  exact sum_proj_mapAdjust GroupBalance.totalPaid
    (fun payer => { payer with totalPaid := payer.totalPaid + e.amount })
    e.amount (fun b => rfl) m e.paidBy h
lemma sumPaid_expenses_foldl (l : List Expense) (m : List (String × GroupBalance))
    (h : (mapKeys m).Nodup) :
    sumPaid (l.foldl applyExpense m) = sumPaid m +
      ((l.filter (fun e => e.paidBy ∈ mapKeys m)).map Expense.amount).sum := by
  induction l generalizing m with
  | nil => simp
  | cons e es ih =>
    rw [List.foldl_cons, ih (applyExpense m e)
      (by rw [mapKeys_applyExpense]; exact h)]
    rw [sumPaid_applyExpense m e h, mapKeys_applyExpense]
    by_cases hc : e.paidBy ∈ mapKeys m
    · rw [if_pos hc, List.filter_cons_of_pos (by simpa using hc)]
      simp only [List.map_cons, List.sum_cons]
      ring
    · rw [if_neg hc, List.filter_cons_of_neg (by simpa using hc)]
      ring
lemma sumOwed_expenses_foldl (l : List Expense) (m : List (String × GroupBalance))
    (h : (mapKeys m).Nodup) :
    sumOwed (l.foldl applyExpense m) = sumOwed m +
      (l.map (fun e => ((e.splits.filter
        (fun s => s.settled = false ∧ s.userId ∈ mapKeys m)).map
          ExpenseSplit.amount).sum)).sum := by
  induction l generalizing m with
  | nil => simp
  | cons e es ih =>
    rw [List.foldl_cons, ih (applyExpense m e)
      (by rw [mapKeys_applyExpense]; exact h)]
    rw [sumOwed_applyExpense m e h, mapKeys_applyExpense]
    simp only [List.map_cons, List.sum_cons]
    ring
lemma mem_mapKeys_mapSet (m : List (String × GroupBalance)) (k u : String) (v : GroupBalance) :
    k ∈ mapKeys (mapSet m u v) ↔ k ∈ mapKeys m ∨ k = u := by
  rw [mapKeys_mapSet]
  by_cases h : u ∈ mapKeys m
  · rw [if_pos h]
    constructor
    · exact Or.inl
    · rintro (hk | rfl)
      · exact hk
      · exact h
  · rw [if_neg h]
    simp
lemma mapSet_entries (P : String → GroupBalance → Prop) (m : List (String × GroupBalance))
    (k : String) (v : GroupBalance) (h : ∀ p ∈ m, P p.1 p.2) (hv : P k v) :
    ∀ p ∈ mapSet m k v, P p.1 p.2 := by
  intro p hp
  unfold mapSet at hp
  by_cases hc : m.any (fun p => p.1 = k) = true
  · rw [if_pos hc, List.mem_map] at hp
    obtain ⟨q, hq, rfl⟩ := hp
    by_cases hk : q.1 = k
    · simp only [if_pos hk]; exact hv
    · simp only [if_neg hk]; exact h q hq
  · rw [if_neg hc, List.mem_append] at hp
    rcases hp with hp | hp
    · exact h p hp
    · rw [List.mem_singleton] at hp
      subst hp
      exact hv
lemma initBalances_entries (expenses : List Expense) (memberIds : List String)
    (memberNames : List (String × String)) :
    ∀ p ∈ initBalances expenses memberIds memberNames,
      p.2 = initialEntry expenses memberNames p.1 := by
  unfold initBalances
  suffices h : ∀ (l : List String) (m : List (String × GroupBalance)),
      (∀ p ∈ m, p.2 = initialEntry expenses memberNames p.1) →
      ∀ p ∈ l.foldl (fun m userId => mapSet m userId (initialEntry expenses memberNames userId)) m,
        p.2 = initialEntry expenses memberNames p.1 by
    exact h memberIds [] (by simp)
  intro l
  induction l with
  | nil => intro m h; exact h
  | cons u us ih =>
    intro m h
    rw [List.foldl_cons]
    exact ih _ (mapSet_entries (fun k b => b = initialEntry expenses memberNames k)
      m u (initialEntry expenses memberNames u) h rfl)
lemma mem_mapKeys_initBalances (expenses : List Expense) (memberIds : List String)
    (memberNames : List (String × String)) (k : String) :
    k ∈ mapKeys (initBalances expenses memberIds memberNames) ↔ k ∈ memberIds := by
  unfold initBalances
  suffices h : ∀ (l : List String) (m : List (String × GroupBalance)),
      k ∈ mapKeys (l.foldl (fun m userId =>
        mapSet m userId (initialEntry expenses memberNames userId)) m) ↔
        k ∈ mapKeys m ∨ k ∈ l by
    rw [h memberIds []]
    simp [mapKeys]
  intro l
  induction l with
  | nil => intro m; simp
  | cons u us ih =>
    intro m
    rw [List.foldl_cons, ih, mem_mapKeys_mapSet]
    simp [List.mem_cons]
    tauto
lemma nodup_mapKeys_initBalances (expenses : List Expense) (memberIds : List String)
    (memberNames : List (String × String)) :
    (mapKeys (initBalances expenses memberIds memberNames)).Nodup := by
  unfold initBalances
  suffices h : ∀ (l : List String) (m : List (String × GroupBalance)), (mapKeys m).Nodup →
      (mapKeys (l.foldl (fun m userId =>
        mapSet m userId (initialEntry expenses memberNames userId)) m)).Nodup by
    exact h memberIds [] (by simp [mapKeys])
  intro l
  induction l with
  | nil => intro m h; exact h
  | cons u us ih =>
    intro m h
    rw [List.foldl_cons]
    exact ih _ (nodup_mapKeys_mapSet m u _ h)
lemma sumPaid_initBalances (expenses : List Expense) (memberIds : List String)
    (memberNames : List (String × String)) :
    sumPaid (initBalances expenses memberIds memberNames) = 0 := by
  apply List.sum_eq_zero
  intro x hx
  rw [List.mem_map] at hx
  obtain ⟨p, hp, rfl⟩ := hx
  rw [initBalances_entries expenses memberIds memberNames p hp]
  rfl
lemma sumOwed_initBalances (expenses : List Expense) (memberIds : List String)
    (memberNames : List (String × String)) :
    sumOwed (initBalances expenses memberIds memberNames) = 0 := by
  apply List.sum_eq_zero
  intro x hx
  rw [List.mem_map] at hx
  obtain ⟨p, hp, rfl⟩ := hx
  rw [initBalances_entries expenses memberIds memberNames p hp]
  rfl
lemma calculateGroupBalances_map_proj (expenses : List Expense) (memberIds : List String)
    (memberNames : List (String × String)) (g : GroupBalance → ℚ)
    (hg : ∀ b : GroupBalance, g { b with balance := b.totalPaid - b.totalOwed } = g b) :
    (calculateGroupBalances expenses memberIds memberNames).map g =
      (expenses.foldl applyExpense (initBalances expenses memberIds memberNames)).map
        (fun p => g p.2) := by
  unfold calculateGroupBalances
  rw [List.map_map, List.map_map]
  apply List.map_congr_left
  intro p _
  exact hg p.2
/-- Paid conservation, as a reusable lemma. -/
lemma calc_sumPaid (expenses : List Expense) (memberIds : List String)
    (memberNames : List (String × String)) :
    ((calculateGroupBalances expenses memberIds memberNames).map GroupBalance.totalPaid).sum =
      ((expenses.filter (fun e => e.paidBy ∈ memberIds)).map Expense.amount).sum := by
  rw [calculateGroupBalances_map_proj expenses memberIds memberNames
    GroupBalance.totalPaid (fun b => rfl)]
  rw [show ((expenses.foldl applyExpense (initBalances expenses memberIds memberNames)).map
    (fun p => GroupBalance.totalPaid p.2)).sum =
    sumPaid (expenses.foldl applyExpense (initBalances expenses memberIds memberNames)) from rfl]
  rw [sumPaid_expenses_foldl expenses _ (nodup_mapKeys_initBalances expenses memberIds memberNames)]
  rw [sumPaid_initBalances, zero_add]
  congr 1
  apply congrArg
  apply List.filter_congr
  intro e _
  rw [decide_eq_decide]
  exact mem_mapKeys_initBalances expenses memberIds memberNames e.paidBy
/-- Owed conservation, as a reusable lemma. -/
lemma calc_sumOwed (expenses : List Expense) (memberIds : List String)
    (memberNames : List (String × String)) :
    ((calculateGroupBalances expenses memberIds memberNames).map GroupBalance.totalOwed).sum =
      (expenses.map (fun e => ((e.splits.filter
        (fun s => s.settled = false ∧ s.userId ∈ memberIds)).map ExpenseSplit.amount).sum)).sum := by
  rw [calculateGroupBalances_map_proj expenses memberIds memberNames
    GroupBalance.totalOwed (fun b => rfl)]
  rw [show ((expenses.foldl applyExpense (initBalances expenses memberIds memberNames)).map
    (fun p => GroupBalance.totalOwed p.2)).sum =
    sumOwed (expenses.foldl applyExpense (initBalances expenses memberIds memberNames)) from rfl]
  rw [sumOwed_expenses_foldl expenses _ (nodup_mapKeys_initBalances expenses memberIds memberNames)]
  rw [sumOwed_initBalances, zero_add]
  apply congrArg
  apply List.map_congr_left
  intro e _
  apply congrArg
  apply congrArg
  apply List.filter_congr
  intro s _
  rw [decide_eq_decide]
  exact and_congr_right (fun _ =>
    mem_mapKeys_initBalances expenses memberIds memberNames s.userId)
/-- Every produced entry satisfies balance = totalPaid - totalOwed. -/
lemma calc_balance_eq (expenses : List Expense) (memberIds : List String)
    (memberNames : List (String × String)) :
    ∀ b ∈ calculateGroupBalances expenses memberIds memberNames,
      b.balance = b.totalPaid - b.totalOwed := by
  intro b hb
  unfold calculateGroupBalances at hb
  rw [List.map_map, List.mem_map] at hb
  obtain ⟨p, _, rfl⟩ := hb
  rfl
/-- C2: the paid sum across the output equals the total amount of expenses
paid by roster members, the owed sum equals the total of unsettled split
amounts attributed to roster members, and each entry satisfies
balance = totalPaid - totalOwed. -/
theorem calculateGroupBalances_conservation (expenses : List Expense)
    (memberIds : List String) (memberNames : List (String × String)) :
    ((calculateGroupBalances expenses memberIds memberNames).map GroupBalance.totalPaid).sum =
      ((expenses.filter (fun e => e.paidBy ∈ memberIds)).map Expense.amount).sum ∧
    ((calculateGroupBalances expenses memberIds memberNames).map GroupBalance.totalOwed).sum =
      (expenses.map (fun e => ((e.splits.filter
        (fun s => s.settled = false ∧ s.userId ∈ memberIds)).map ExpenseSplit.amount).sum)).sum ∧
    ∀ b ∈ calculateGroupBalances expenses memberIds memberNames,
      b.balance = b.totalPaid - b.totalOwed :=
  ⟨calc_sumPaid expenses memberIds memberNames,
   calc_sumOwed expenses memberIds memberNames,
   calc_balance_eq expenses memberIds memberNames⟩
lemma sum_balance_eq_sub (l : List GroupBalance)
    (h : ∀ b ∈ l, b.balance = b.totalPaid - b.totalOwed) :
    (l.map GroupBalance.balance).sum =
      (l.map GroupBalance.totalPaid).sum - (l.map GroupBalance.totalOwed).sum := by
  induction l with
  | nil => simp
  | cons b bs ih =>
    simp only [List.map_cons, List.sum_cons]
    rw [h b (by simp), ih (fun x hx => h x (by simp [hx]))]
    ring
/-- C5 amended: when additionally every payer is a roster member and each
expense has splits summing exactly to its amount, the balances sum to zero
exactly. -/
theorem calculateGroupBalances_zero_sum (expenses : List Expense)
    (memberIds : List String) (memberNames : List (String × String))
    (hpay : ∀ e ∈ expenses, e.paidBy ∈ memberIds)
    (hsplit : ∀ e ∈ expenses, ∀ s ∈ e.splits, s.userId ∈ memberIds ∧ s.settled = false)
    (hsum : ∀ e ∈ expenses, (e.splits.map ExpenseSplit.amount).sum = e.amount) :
    ((calculateGroupBalances expenses memberIds memberNames).map GroupBalance.balance).sum = 0 := by
  rw [sum_balance_eq_sub _ (calc_balance_eq expenses memberIds memberNames)]
  rw [calc_sumPaid, calc_sumOwed]
  rw [List.filter_eq_self.mpr (fun e he => by simpa using hpay e he)]
  rw [sub_eq_zero]
  apply congrArg
  apply List.map_congr_left
  intro e he
  rw [List.filter_eq_self.mpr (fun s hs => by
    simp only [decide_eq_true_eq]
    exact ⟨(hsplit e he s hs).2, (hsplit e he s hs).1⟩)]
  exact (hsum e he).symm
/-- C5 witness: one 100 expense paid by a, split 50-50 between a and b. -/
theorem calculateGroupBalances_zero_sum_witness :
    (∀ e ∈ [expenseW], e.paidBy ∈ ["a", "b"]) ∧
    (∀ e ∈ [expenseW], ∀ s ∈ e.splits, s.userId ∈ ["a", "b"] ∧ s.settled = false) ∧
    (∀ e ∈ [expenseW], (e.splits.map ExpenseSplit.amount).sum = e.amount) ∧
    (((calculateGroupBalances [expenseW]
      ["a", "b"] [("a", "A"), ("b", "B")]).map GroupBalance.balance).sum = 0) :=
  ⟨by intro e he; simp at he; subst he; simp [expenseW],
   by intro e he; simp at he; subst he; intro s hs; simp [expenseW] at hs
      rcases hs with h | h <;> subst h <;> simp,
   by intro e he; simp at he; subst he; norm_num [expenseW],
   calculateGroupBalances_zero_sum _ ["a", "b"] _
    (by intro e he; simp at he; subst he; simp [expenseW])
    (by intro e he; simp at he; subst he; intro s hs; simp [expenseW] at hs
        rcases hs with h | h <;> subst h <;> simp)
    (by intro e he; simp at he; subst he; norm_num [expenseW])⟩
/-- C5 counterexample: every split is attributed to a roster member and none
is settled, yet the balances sum to -100 because the payer is not on the
roster, so the sum is far outside any 0.01 tolerance of zero. -/
theorem calculateGroupBalances_zero_sum_counterexample :
    (∀ e ∈ [expenseOutsider], ∀ s ∈ e.splits, s.userId ∈ ["a"] ∧ s.settled = false) ∧
    ¬ (|((calculateGroupBalances [expenseOutsider] ["a"] [("a", "A")]).map
        GroupBalance.balance).sum| < 1/100) := by
  constructor
  · intro e he; simp at he; subst he; intro s hs; simp [expenseOutsider] at hs
    subst hs; simp
  · have : calculateGroupBalances [expenseOutsider] ["a"] [("a", "A")] =
      [{ groupId := "g", userId := "a", displayName := "A",
         totalPaid := 0, totalOwed := 100, balance := -100 }] := by
      simp [calculateGroupBalances, initBalances, initialEntry, applyExpense, applySplit,
        mapSet, mapAdjust, nameOrUnknown, expenseOutsider]
    rw [this]
    norm_num
lemma mapKeys_initBalances_of_nodup (expenses : List Expense) (memberIds : List String)
    (memberNames : List (String × String)) (h : memberIds.Nodup) :
    mapKeys (initBalances expenses memberIds memberNames) = memberIds := by
  unfold initBalances
  suffices hgen : ∀ (l : List String) (m : List (String × GroupBalance)), l.Nodup →
      (∀ u ∈ l, u ∉ mapKeys m) →
      mapKeys (l.foldl (fun m userId =>
        mapSet m userId (initialEntry expenses memberNames userId)) m) = mapKeys m ++ l by
    rw [hgen memberIds [] h (by simp [mapKeys])]
    rfl
  intro l
  induction l with
  | nil => intro m _ _; simp
  | cons u us ih =>
    intro m hnd hdisj
    rw [List.nodup_cons] at hnd
    rw [List.foldl_cons]
    have hu : u ∉ mapKeys m := hdisj u (by simp)
    have hk : mapKeys (mapSet m u (initialEntry expenses memberNames u)) = mapKeys m ++ [u] := by
      rw [mapKeys_mapSet, if_neg hu]
    rw [ih _ hnd.2 (by
      intro x hx
      rw [hk, List.mem_append, List.mem_singleton]
      rintro (hmem | rfl)
      · exact hdisj x (by simp [hx]) hmem
      · exact hnd.1 hx), hk]
    rw [List.append_assoc]
    rfl
lemma applySplit_entryWF (memberNames : List (String × String))
    (m : List (String × GroupBalance)) (s : ExpenseSplit)
    (h : ∀ p ∈ m, entryWF memberNames p.1 p.2) :
    ∀ p ∈ applySplit m s, entryWF memberNames p.1 p.2 := by
  unfold applySplit
  by_cases hs : s.settled = false
  · rw [if_pos hs]
    exact mapAdjust_entries _ _ m s.userId (fun k' b hb => hb) h
  · rw [if_neg hs]; exact h
lemma applyExpense_entryWF (memberNames : List (String × String))
    (m : List (String × GroupBalance)) (e : Expense)
    (h : ∀ p ∈ m, entryWF memberNames p.1 p.2) :
    ∀ p ∈ applyExpense m e, entryWF memberNames p.1 p.2 := by
  unfold applyExpense
  suffices hgen : ∀ (l : List ExpenseSplit) (m0 : List (String × GroupBalance)),
      (∀ p ∈ m0, entryWF memberNames p.1 p.2) →
      ∀ p ∈ l.foldl applySplit m0, entryWF memberNames p.1 p.2 by
    exact hgen e.splits _ (mapAdjust_entries _ _ m e.paidBy (fun k' b hb => hb) h)
  intro l
  induction l with
  | nil => intro m0 h0; exact h0
  | cons s ss ih =>
    intro m0 h0
    rw [List.foldl_cons]
    exact ih _ (applySplit_entryWF memberNames m0 s h0)
lemma expenses_foldl_entryWF (memberNames : List (String × String))
    (l : List Expense) (m : List (String × GroupBalance))
    (h : ∀ p ∈ m, entryWF memberNames p.1 p.2) :
    ∀ p ∈ l.foldl applyExpense m, entryWF memberNames p.1 p.2 := by
  induction l generalizing m with
  | nil => exact fun p hp => h p hp
  | cons e es ih =>
    rw [List.foldl_cons]
    exact ih _ (applyExpense_entryWF memberNames m e h)
lemma initBalances_entryWF (expenses : List Expense) (memberIds : List String)
    (memberNames : List (String × String)) :
    ∀ p ∈ initBalances expenses memberIds memberNames, entryWF memberNames p.1 p.2 := by
  intro p hp
  rw [initBalances_entries expenses memberIds memberNames p hp]
  exact ⟨rfl, rfl⟩
/-- C4: with a duplicate-free roster the output has exactly one entry per
roster member, in roster order (witnessed by the userId column equaling the
roster), and a member whose id has no name mapping gets the displayName
Unknown instead of causing a failure (the function is total by
construction). -/
theorem calculateGroupBalances_roster (expenses : List Expense) (memberIds : List String)
    (memberNames : List (String × String)) (h : memberIds.Nodup) :
    ((calculateGroupBalances expenses memberIds memberNames).map GroupBalance.userId)
        = memberIds ∧
    ∀ b ∈ calculateGroupBalances expenses memberIds memberNames,
      memberNames.lookup b.userId = none → b.displayName = "Unknown" := by
  have hwf : ∀ p ∈ (expenses.foldl applyExpense (initBalances expenses memberIds memberNames)),
      entryWF memberNames p.1 p.2 :=
    expenses_foldl_entryWF memberNames expenses _
      (initBalances_entryWF expenses memberIds memberNames)
  constructor
  · unfold calculateGroupBalances
    rw [List.map_map, List.map_map]
    have e1 : ∀ p ∈ expenses.foldl applyExpense (initBalances expenses memberIds memberNames),
        ((GroupBalance.userId ∘ fun b : GroupBalance =>
          { b with balance := b.totalPaid - b.totalOwed }) ∘ Prod.snd) p = p.1 :=
      fun p hp => (hwf p hp).1
    rw [List.map_congr_left e1]
    show mapKeys _ = memberIds
    rw [mapKeys_expenses_foldl, mapKeys_initBalances_of_nodup expenses memberIds memberNames h]
  · intro b hb hnone
    unfold calculateGroupBalances at hb
    rw [List.map_map, List.mem_map] at hb
    obtain ⟨p, hp, rfl⟩ := hb
    have huid : (((fun b : GroupBalance => { b with balance := b.totalPaid - b.totalOwed }) ∘
        Prod.snd) p).userId = p.1 := (hwf p hp).1
    rw [huid] at hnone
    show p.2.displayName = "Unknown"
    rw [(hwf p hp).2]
    unfold nameOrUnknown
    rw [hnone]
/-- C4 witness: two members, one of them without a name mapping. -/
theorem calculateGroupBalances_roster_witness :
    (["a", "b"] : List String).Nodup ∧
    ((calculateGroupBalances [] ["a", "b"] [("a", "A")]).map GroupBalance.userId) = ["a", "b"] ∧
    ∀ b ∈ calculateGroupBalances [] ["a", "b"] [("a", "A")],
      [("a", "A")].lookup b.userId = none → b.displayName = "Unknown" :=
  ⟨by simp,
   (calculateGroupBalances_roster [] ["a", "b"] [("a", "A")] (by simp)).1,
   (calculateGroupBalances_roster [] ["a", "b"] [("a", "A")] (by simp)).2⟩
/-- Every transaction the loop emits has amount at least 0.01, provided all
remaining creditor and debtor balances are at least 0.01. -/
lemma greedyLoop_amount_ge (cl dl : List GroupBalance)
    (hcl : ∀ c ∈ cl, 1/100 ≤ c.balance) (hdl : ∀ d ∈ dl, 1/100 ≤ d.balance) :
    ∀ t ∈ greedyLoop cl dl, 1/100 ≤ t.amount := by
  induction cl, dl using greedyLoop.induct with
  | case1 x => intro t ht; simp [greedyLoop] at ht
  | case2 head tail => intro t ht; simp [greedyLoop] at ht
  | case3 creditor cs debtor ds ih =>
    intro t ht
    rw [greedyLoop] at ht
    rcases List.mem_cons.mp ht with rfl | ht
    · exact le_min (hcl creditor (by simp)) (hdl debtor (by simp))
    · apply ih _ _ t ht
      · intro c hc
        split at hc
        · exact hcl c (by simp [hc])
        · rcases List.mem_cons.mp hc with rfl | hc
          · simpa using by linarith [not_lt.mp (by assumption : ¬ creditor.balance - min creditor.balance debtor.balance < 1/100)]
          · exact hcl c (by simp [hc])
      · intro d hd
        split at hd
        · exact hdl d (by simp [hd])
        · rcases List.mem_cons.mp hd with rfl | hd
          · simpa using by linarith [not_lt.mp (by assumption : ¬ debtor.balance - min creditor.balance debtor.balance < 1/100)]
          · exact hdl d (by simp [hd])
lemma mergeSort_single {α : Type} (le : α → α → Bool) (a : α) :
    [a].mergeSort le = [a] :=
  List.perm_singleton.mp (List.mergeSort_perm [a] le)
lemma mem_creditorsOf (gbs : List GroupBalance) (c : GroupBalance)
    (hc : c ∈ creditorsOf gbs) : 1/100 < c.balance := by
  unfold creditorsOf at hc
  rw [(List.mergeSort_perm _ _).mem_iff, List.mem_filter] at hc
  simpa using hc.2
lemma mem_debtorsOf (gbs : List GroupBalance) (d : GroupBalance)
    (hd : d ∈ debtorsOf gbs) : 1/100 < d.balance := by
  unfold debtorsOf at hd
  rw [(List.mergeSort_perm _ _).mem_iff, List.mem_map] at hd
  obtain ⟨b, hb, rfl⟩ := hd
  rw [List.mem_filter] at hb
  have : b.balance < -(1/100) := by simpa using hb.2
  show 1/100 < -b.balance
  linarith
/-- C10: every transaction simplifyDebts emits has amount at least 0.01: the
loop only ever matches a creditor and a debtor whose remaining balances are
both at least the tolerance. -/
theorem simplifyDebts_amount_ge (groupBalances : List GroupBalance) :
    ∀ t ∈ simplifyDebts groupBalances, 1/100 ≤ t.amount := by
  apply greedyLoop_amount_ge
  · exact fun c hc => le_of_lt (mem_creditorsOf groupBalances c hc)
  · exact fun d hd => le_of_lt (mem_debtorsOf groupBalances d hd)
lemma simplifyDebts_eval :
    simplifyDebts [gbAlice, gbBob] =
      [{ userId := "bob", displayName := "Bob owes Alice", amount := 50 }] := by
  unfold simplifyDebts creditorsOf debtorsOf
  norm_num [gbAlice, gbBob, List.filter, mergeSort_single]
  rw [greedyLoop]
  norm_num [greedyLoop]
  rfl
/-- C10 witness: the 50-unit transaction from bob to alice. -/
theorem simplifyDebts_amount_ge_witness :
    1/100 ≤ ({ userId := "bob", displayName := "Bob owes Alice", amount := 50 } : Balance).amount :=
  simplifyDebts_amount_ge [gbAlice, gbBob] _ (by rw [simplifyDebts_eval]; simp)
lemma greedyLoop_length_le (cl dl : List GroupBalance) :
    (greedyLoop cl dl).length ≤ cl.length + dl.length - 1 := by
  induction cl, dl using greedyLoop.induct with
  | case1 x => simp [greedyLoop]
  | case2 head tail => simp [greedyLoop]
  | case3 creditor cs debtor ds ih =>
    rw [greedyLoop]
    rw [List.length_cons]
    by_cases hc : creditor.balance - min creditor.balance debtor.balance < 1/100 <;>
      by_cases hd : debtor.balance - min creditor.balance debtor.balance < 1/100
    · rw [if_pos hc, if_pos hd]
      rw [dif_pos hc, dif_pos hd] at ih
      simp only [List.length_cons]
      omega
    · rw [if_pos hc, if_neg hd]
      rw [dif_pos hc, dif_neg hd] at ih
      simp only [List.length_cons] at ih ⊢
      omega
    · rw [if_neg hc, if_pos hd]
      rw [dif_neg hc, dif_pos hd] at ih
      simp only [List.length_cons] at ih ⊢
      omega
    · exfalso
      rcases le_total creditor.balance debtor.balance with h | h
      · exact hc (by rw [min_eq_left h]; norm_num)
      · exact hd (by rw [min_eq_right h]; norm_num)
/-- C6: the number of transactions is at most (number of creditors) plus
(number of debtors) minus 1, creditors being the balances above 0.01 and
debtors those below -0.01 (natural-number subtraction, so the bound reads 0
when both pools are empty). -/
theorem simplifyDebts_length_le (groupBalances : List GroupBalance) :
    (simplifyDebts groupBalances).length ≤
      (groupBalances.filter (fun b => b.balance > 1/100)).length +
      (groupBalances.filter (fun b => b.balance < -(1/100))).length - 1 := by
  have h := greedyLoop_length_le (creditorsOf groupBalances) (debtorsOf groupBalances)
  have hc : (creditorsOf groupBalances).length =
      (groupBalances.filter (fun b => b.balance > 1/100)).length :=
    (List.mergeSort_perm _ _).length_eq
  have hd : (debtorsOf groupBalances).length =
      (groupBalances.filter (fun b => b.balance < -(1/100))).length := by
    unfold debtorsOf
    rw [(List.mergeSort_perm _ _).length_eq, List.length_map]
  unfold simplifyDebts
  omega
lemma sumAmountsTo_cons (u : String) (t : Balance) (ts : List Balance) :
    sumAmountsTo u (t :: ts) =
      (if t.userId = u then t.amount else 0) + sumAmountsTo u ts := by
  unfold sumAmountsTo
  rw [List.filter_cons]
  by_cases h : t.userId = u
  · simp [h]
  · simp [h]
lemma sumBalTo_cons (u : String) (b : GroupBalance) (l : List GroupBalance) :
    sumBalTo u (b :: l) =
      (if b.userId = u then b.balance else 0) + sumBalTo u l := by
  unfold sumBalTo
  rw [List.filter_cons]
  by_cases h : b.userId = u
  · simp [h]
  · simp [h]
lemma countId_cons (u : String) (b : GroupBalance) (l : List GroupBalance) :
    countId u (b :: l) = (if b.userId = u then 1 else 0) + countId u l := by
  unfold countId
  rw [List.filter_cons]
  by_cases h : b.userId = u
  · simp [h]; omega
  · simp [h]
lemma totalBal_cons (b : GroupBalance) (l : List GroupBalance) :
    totalBal (b :: l) = b.balance + totalBal l := by
  unfold totalBal
  rw [List.map_cons, List.sum_cons]
lemma countId_eq_zero (u : String) (l : List GroupBalance) :
    countId u l = 0 ↔ ∀ b ∈ l, b.userId ≠ u := by
  unfold countId
  rw [List.length_eq_zero, List.filter_eq_nil_iff]
  simp
lemma sumBalTo_of_countId_zero (u : String) (l : List GroupBalance)
    (h : countId u l = 0) : sumBalTo u l = 0 := by
  unfold sumBalTo
  unfold countId at h
  rw [List.length_eq_zero] at h
  rw [h]
  rfl
lemma greedyLoop_userIds_subset (cl dl : List GroupBalance) :
    ∀ t ∈ greedyLoop cl dl, t.userId ∈ dl.map GroupBalance.userId := by
  induction cl, dl using greedyLoop.induct with
  | case1 x => intro t ht; simp [greedyLoop] at ht
  | case2 head tail => intro t ht; simp [greedyLoop] at ht
  | case3 creditor cs debtor ds ih =>
    intro t ht
    rw [greedyLoop] at ht
    rcases List.mem_cons.mp ht with rfl | ht
    · simp
    · have := ih t ht
      rw [List.map_cons, List.mem_cons]
      split at this
      · exact Or.inr this
      · rw [List.map_cons, List.mem_cons] at this
        rcases this with h | h
        · exact Or.inl h
        · exact Or.inr h
lemma greedyLoop_sumAmountsTo_zero (cl dl : List GroupBalance) (u : String)
    (h : countId u dl = 0) : sumAmountsTo u (greedyLoop cl dl) = 0 := by
  unfold sumAmountsTo
  rw [List.filter_eq_nil_iff.mpr]
  · rfl
  · intro t ht
    simp only [decide_eq_true_eq]
    intro he
    have hmem := greedyLoop_userIds_subset cl dl t ht
    rw [List.mem_map] at hmem
    obtain ⟨b, hb, hbu⟩ := hmem
    exact (countId_eq_zero u dl).mp h b hb (by rw [hbu, he])
/-- Per-debtor accounting for the greedy loop: when the creditors can cover
all debtors even after losing up to 0.01 of slack per creditor, a userId
that occurs on exactly one debtor record receives transactions summing to
the balance of that record, up to a shortfall strictly below 0.01. -/
lemma greedyLoop_debtor_bounds (cl dl : List GroupBalance) (u : String)
    (hcl : ∀ c ∈ cl, 1/100 ≤ c.balance)
    (hdl : ∀ d ∈ dl, 1/100 ≤ d.balance)
    (hcov : totalBal dl + (1/100) * cl.length ≤ totalBal cl)
    (hcount : countId u dl = 1) :
    sumBalTo u dl - 1/100 < sumAmountsTo u (greedyLoop cl dl) ∧
    sumAmountsTo u (greedyLoop cl dl) ≤ sumBalTo u dl := by
  induction cl, dl using greedyLoop.induct with
  | case1 dl =>
    exfalso
    have hne : dl ≠ [] := by
      intro h
      rw [h] at hcount
      simp [countId] at hcount
    have hpos : 0 < (dl.map GroupBalance.balance).sum := by
      apply List.sum_pos
      · intro q hq
        rw [List.mem_map] at hq
        obtain ⟨b, hb, rfl⟩ := hq
        linarith [hdl b hb]
      · simpa using hne
    simp only [totalBal, List.map_nil, List.sum_nil, List.length_nil] at hcov
    push_cast at hcov
    linarith
  | case2 head tail =>
    simp [countId] at hcount
  | case3 creditor cs debtor ds ih =>
    have hcb : 1/100 ≤ creditor.balance := hcl _ (by simp)
    have hdb : 1/100 ≤ debtor.balance := hdl _ (by simp)
    have hclt : ∀ c ∈ cs, 1/100 ≤ c.balance := fun c hc => hcl c (by simp [hc])
    have hdlt : ∀ d ∈ ds, 1/100 ≤ d.balance := fun d hd => hdl d (by simp [hd])
    have hmc : min creditor.balance debtor.balance ≤ creditor.balance := min_le_left _ _
    have hmd : min creditor.balance debtor.balance ≤ debtor.balance := min_le_right _ _
    have hmge : 1/100 ≤ min creditor.balance debtor.balance := le_min hcb hdb
    rw [totalBal_cons, totalBal_cons, List.length_cons] at hcov
    push_cast at hcov
    rw [countId_cons] at hcount
    rw [greedyLoop, sumAmountsTo_cons, sumBalTo_cons]
    try dsimp only
    by_cases hc : creditor.balance - min creditor.balance debtor.balance < 1/100 <;>
      by_cases hd : debtor.balance - min creditor.balance debtor.balance < 1/100
    · rw [if_pos hc, if_pos hd]
      rw [dif_pos hc, dif_pos hd] at ih
      by_cases hu : debtor.userId = u
      · simp only [if_pos hu] at hcount ⊢
        have h0 : countId u ds = 0 := by omega
        have hS : sumAmountsTo u (greedyLoop cs ds) = 0 :=
          greedyLoop_sumAmountsTo_zero cs ds u h0
        have hb0 : sumBalTo u ds = 0 := sumBalTo_of_countId_zero u ds h0
        rw [hS, hb0]
        constructor <;> linarith
      · simp only [if_neg hu] at hcount ⊢
        have h1 : countId u ds = 1 := by omega
        have hcov2 : totalBal ds + (1/100) * cs.length ≤ totalBal cs := by linarith
        have IH := ih hclt hdlt hcov2 h1
        constructor <;> linarith [IH.1, IH.2]
    · rw [if_pos hc, if_neg hd]
      rw [dif_pos hc, dif_neg hd] at ih
      have hdl2 : ∀ d ∈ ({ debtor with
          balance := debtor.balance - min creditor.balance debtor.balance } :: ds),
          1/100 ≤ d.balance := by
        intro d hdm
        rcases List.mem_cons.mp hdm with rfl | hdm
        · try dsimp only
          linarith [not_lt.mp hd]
        · exact hdlt d hdm
      have hcov2 : totalBal ({ debtor with
          balance := debtor.balance - min creditor.balance debtor.balance } :: ds) +
          (1/100) * cs.length ≤ totalBal cs := by
        rw [totalBal_cons]
        try dsimp only
        linarith
      have hcount2 : countId u ({ debtor with
          balance := debtor.balance - min creditor.balance debtor.balance } :: ds) = 1 := by
        rw [countId_cons]
        try dsimp only
        omega
      have IH := ih hclt hdl2 hcov2 hcount2
      rw [sumBalTo_cons] at IH
      try dsimp only at IH
      by_cases hu : debtor.userId = u
      · simp only [if_pos hu] at IH ⊢
        constructor <;> linarith [IH.1, IH.2]
      · simp only [if_neg hu] at IH ⊢
        constructor <;> linarith [IH.1, IH.2]
    · rw [if_neg hc, if_pos hd]
      rw [dif_neg hc, dif_pos hd] at ih
      have hcl2 : ∀ c ∈ ({ creditor with
          balance := creditor.balance - min creditor.balance debtor.balance } :: cs),
          1/100 ≤ c.balance := by
        intro c hcm
        rcases List.mem_cons.mp hcm with rfl | hcm
        · try dsimp only
          linarith [not_lt.mp hc]
        · exact hclt c hcm
      have hcov2 : totalBal ds + (1/100) * (({ creditor with
          balance := creditor.balance - min creditor.balance debtor.balance } :: cs).length) ≤
          totalBal ({ creditor with
          balance := creditor.balance - min creditor.balance debtor.balance } :: cs) := by
        rw [totalBal_cons, List.length_cons]
        push_cast
        try dsimp only
        linarith
      by_cases hu : debtor.userId = u
      · simp only [if_pos hu] at hcount ⊢
        have h0 : countId u ds = 0 := by omega
        have hS : sumAmountsTo u (greedyLoop ({ creditor with
            balance := creditor.balance - min creditor.balance debtor.balance } :: cs) ds) = 0 :=
          greedyLoop_sumAmountsTo_zero _ ds u h0
        have hb0 : sumBalTo u ds = 0 := sumBalTo_of_countId_zero u ds h0
        rw [hS, hb0]
        constructor <;> linarith
      · simp only [if_neg hu] at hcount ⊢
        have h1 : countId u ds = 1 := by omega
        have IH := ih hcl2 hdlt hcov2 h1
        constructor <;> linarith [IH.1, IH.2]
    · exfalso
      rcases le_total creditor.balance debtor.balance with h | h
      · exact hc (by rw [min_eq_left h]; norm_num)
      · exact hd (by rw [min_eq_right h]; norm_num)
lemma filter_userId_eq_singleton (l : List GroupBalance) (x : GroupBalance)
    (hnd : (l.map GroupBalance.userId).Nodup) (hx : x ∈ l) :
    l.filter (fun b => b.userId = x.userId) = [x] := by
  induction l with
  | nil => simp at hx
  | cons a as ih =>
    rw [List.map_cons, List.nodup_cons] at hnd
    rcases List.mem_cons.mp hx with rfl | hx
    · rw [List.filter_cons_of_pos (by simp)]
      have hnil : as.filter (fun b => b.userId = x.userId) = [] := by
        rw [List.filter_eq_nil_iff]
        intro b hb
        simp only [decide_eq_true_eq]
        intro he
        exact hnd.1 (he ▸ List.mem_map_of_mem GroupBalance.userId hb)
      rw [hnil]
    · have hne : ¬ (a.userId = x.userId) := by
        intro he
        exact hnd.1 (he ▸ List.mem_map_of_mem GroupBalance.userId hx)
      rw [List.filter_cons_of_neg (by simpa using hne)]
      exact ih hnd.2 hx
/-- C1 amended: assume the debtor records carry pairwise distinct userIds and
the creditor pool covers the debtor pool with 0.01 of slack per creditor
(without creditors, or with insufficient creditor mass, unmatched debt is
simply never emitted).  Then for every debtor, the transactions simplifyDebts
emits for its userId sum to the absolute value of its original balance, short
by strictly less than 0.01. -/
theorem simplifyDebts_debtor_completeness (groupBalances : List GroupBalance)
    (d : GroupBalance) (hd : d ∈ groupBalances) (hdb : d.balance < -(1/100))
    (hnd : ((groupBalances.filter (fun b => b.balance < -(1/100))).map
      GroupBalance.userId).Nodup)
    (hcov : ((groupBalances.filter (fun b => b.balance < -(1/100))).map
        (fun b => -b.balance)).sum +
      (1/100) * ((groupBalances.filter (fun b => b.balance > 1/100)).length : ℚ) ≤
      ((groupBalances.filter (fun b => b.balance > 1/100)).map GroupBalance.balance).sum) :
    |sumAmountsTo d.userId (simplifyDebts groupBalances) - (-d.balance)| < 1/100 := by
  have hdF : d ∈ groupBalances.filter (fun b => b.balance < -(1/100)) :=
    List.mem_filter.mpr ⟨hd, by simpa using hdb⟩
  set F := groupBalances.filter (fun b => b.balance < -(1/100)) with hF
  set N := F.map (fun b => { b with balance := -b.balance }) with hN
  have hNnd : (N.map GroupBalance.userId).Nodup := by
    rw [hN, List.map_map]
    exact hnd
  have hdN : ({ d with balance := -d.balance } : GroupBalance) ∈ N :=
    List.mem_map_of_mem _ hdF
  have hfilterN : N.filter (fun b => b.userId = d.userId) =
      [{ d with balance := -d.balance }] :=
    filter_userId_eq_singleton N _ hNnd hdN
  have hperm : (debtorsOf groupBalances).filter (fun b => b.userId = d.userId) =
      [{ d with balance := -d.balance }] := by
    apply List.perm_singleton.mp
    rw [← hfilterN]
    exact (List.mergeSort_perm N _).filter _
  have hcount : countId d.userId (debtorsOf groupBalances) = 1 := by
    unfold countId
    rw [hperm]
    rfl
  have hsumBal : sumBalTo d.userId (debtorsOf groupBalances) = -d.balance := by
    unfold sumBalTo
    rw [hperm]
    simp
  have hcovT : totalBal (debtorsOf groupBalances) +
      (1/100) * ((creditorsOf groupBalances).length : ℚ) ≤
      totalBal (creditorsOf groupBalances) := by
    have e1 : totalBal (debtorsOf groupBalances) = (F.map (fun b => -b.balance)).sum := by
      unfold totalBal debtorsOf
      rw [((List.mergeSort_perm _ _).map GroupBalance.balance).sum_eq, List.map_map]
      rfl
    have e2 : totalBal (creditorsOf groupBalances) =
        ((groupBalances.filter (fun b => b.balance > 1/100)).map GroupBalance.balance).sum := by
      unfold totalBal creditorsOf
      rw [((List.mergeSort_perm _ _).map GroupBalance.balance).sum_eq]
    have e3 : (creditorsOf groupBalances).length =
        (groupBalances.filter (fun b => b.balance > 1/100)).length :=
      (List.mergeSort_perm _ _).length_eq
    rw [e1, e2, e3]
    exact hcov
  have hbounds := greedyLoop_debtor_bounds (creditorsOf groupBalances)
    (debtorsOf groupBalances) d.userId
    (fun c hc => le_of_lt (mem_creditorsOf groupBalances c hc))
    (fun x hx => le_of_lt (mem_debtorsOf groupBalances x hx))
    hcovT hcount
  rw [hsumBal] at hbounds
  unfold simplifyDebts
  rw [abs_lt]
  constructor
  · linarith [hbounds.1]
  · linarith [hbounds.2]
/-- C1 witness: carol is owed 51, dave owes 50; the transactions emitted for
dave sum to exactly 50. -/
theorem simplifyDebts_debtor_completeness_witness :
    gbDave ∈ [gbCarol, gbDave] ∧ gbDave.balance < -(1/100) ∧
    ((([gbCarol, gbDave].filter (fun b => b.balance < -(1/100))).map
      GroupBalance.userId).Nodup) ∧
    (((([gbCarol, gbDave] : List GroupBalance).filter (fun b => b.balance < -(1/100))).map
        (fun b => -b.balance)).sum +
      (1/100) * ((([gbCarol, gbDave] : List GroupBalance).filter
        (fun b => b.balance > 1/100)).length : ℚ) ≤
      ((([gbCarol, gbDave] : List GroupBalance).filter (fun b => b.balance > 1/100)).map
        GroupBalance.balance).sum) ∧
    |sumAmountsTo gbDave.userId (simplifyDebts [gbCarol, gbDave]) - (-gbDave.balance)| <
      1/100 :=
  ⟨by simp, by norm_num [gbDave],
   by norm_num [gbCarol, gbDave, List.filter],
   by norm_num [gbCarol, gbDave, List.filter],
   simplifyDebts_debtor_completeness [gbCarol, gbDave] gbDave (by simp)
     (by norm_num [gbDave])
     (by norm_num [gbCarol, gbDave, List.filter])
     (by norm_num [gbCarol, gbDave, List.filter])⟩
/-- C1 counterexample: a lone debtor with no creditors receives no
transactions at all, so its emitted total 0 is not within 0.01 of its
absolute balance 5. -/
theorem simplifyDebts_debtor_completeness_counterexample :
    gbLone ∈ [gbLone] ∧ gbLone.balance < -(1/100) ∧
    ¬ (|sumAmountsTo gbLone.userId (simplifyDebts [gbLone]) - (-gbLone.balance)| ≤ 1/100) := by
  refine ⟨by simp, by norm_num [gbLone], ?_⟩
  have hempty : simplifyDebts [gbLone] = [] := by
    unfold simplifyDebts creditorsOf debtorsOf
    norm_num [gbLone, List.filter, mergeSort_single]
    rw [greedyLoop]
  rw [hempty]
  norm_num [sumAmountsTo, gbLone]
lemma simplifyDebtsPost_eval :
    simplifyDebtsPost [gbAlice, gbBob] =
      [{ gbAlice with balance := 0 }, gbBob] := by
  unfold simplifyDebtsPost debtorsOf
  norm_num [gbAlice, gbBob, List.filter, List.enum, mergeSort_single]
  rw [greedyLoopTrace]
  norm_num [greedyLoopTrace, List.find?]
/-- C3 evidence: the first call returns the bob-owes-alice transaction, but
it zeroes the balance of the aliased creditor record in the caller array, so
the array afterwards differs from what was passed in and a second call on it
returns the empty list. -/
theorem simplifyDebts_not_idempotent :
    simplifyDebts [gbAlice, gbBob] =
      [{ userId := "bob", displayName := "Bob owes Alice", amount := 50 }] ∧
    simplifyDebtsPost [gbAlice, gbBob] ≠ [gbAlice, gbBob] ∧
    simplifyDebts (simplifyDebtsPost [gbAlice, gbBob]) = [] := by
  refine ⟨simplifyDebts_eval, ?_, ?_⟩
  · rw [simplifyDebtsPost_eval]
    intro h
    have := List.head_eq_of_cons_eq h
    rw [gbAlice] at this
    simp at this
  · rw [simplifyDebtsPost_eval]
    unfold simplifyDebts creditorsOf debtorsOf
    norm_num [gbAlice, gbBob, List.filter, mergeSort_single]
    rw [greedyLoop]

/-- C2 witness: the conservation equalities at a concrete expense list. -/
theorem calculateGroupBalances_conservation_witness :
    ((calculateGroupBalances [expenseW] ["a", "b"] []).map GroupBalance.totalPaid).sum =
      (([expenseW].filter (fun e => e.paidBy ∈ ["a", "b"])).map Expense.amount).sum ∧
    ((calculateGroupBalances [expenseW] ["a", "b"] []).map GroupBalance.totalOwed).sum =
      ([expenseW].map (fun e => ((e.splits.filter
        (fun s => s.settled = false ∧ s.userId ∈ ["a", "b"])).map ExpenseSplit.amount).sum)).sum ∧
    ∀ b ∈ calculateGroupBalances [expenseW] ["a", "b"] [],
      b.balance = b.totalPaid - b.totalOwed :=
  calculateGroupBalances_conservation [expenseW] ["a", "b"] []
